import Mathlib

/-!
Shallow embedding of the double-entry bookkeeping core of the repository:
the in-memory `Database` (accounts + journal entries, file `db/database.ts`)
and the REST route handlers that validate and apply writes (`api/routes.ts`).

Modelling conventions:
* Monetary amounts are exact rationals (`ℚ`); the source's numeric policy is
  decimal arithmetic with a 0.01 balance tolerance, embedded as `1/100`.
* Dates are ISO `YYYY-MM-DD` strings compared lexicographically, exactly as
  the source compares them with `<=` on strings.
* `uuidv4()` calls are modelled by explicitly supplied fresh-id arguments
  (`entryId`, `lineIds`); timestamps (`new Date()`) by a supplied `now : Nat`.
* Fields that can hold `undefined` at runtime are `Option`-typed: request
  bodies throughout, and `Account.name` / `Account.category` (the PUT
  handler spreads possibly-undefined values over the stored record).
* JavaScript `Map` objects are association lists with insertion-order
  `set`/`get` semantics (`mset` / `mget`).
-/

namespace Accounting

inductive AccountType
  | asset
  | liability
  | equity
  | revenue
  | expense
deriving DecidableEq, Repr

structure Account where
  id : String
  code : String
  name : Option String
  type : AccountType
  category : Option String
  parentId : Option String
  createdAt : Nat
  updatedAt : Nat
deriving DecidableEq, Repr

structure JournalLine where
  id : String
  journalEntryId : String
  accountId : String
  accountName : Option String
  debitAmount : ℚ
  creditAmount : ℚ
deriving DecidableEq, Repr

structure JournalEntry where
  id : String
  date : String
  description : String
  lines : List JournalLine
  isClosed : Bool
  createdAt : Nat
  updatedAt : Nat
deriving DecidableEq, Repr

structure Database where
  accounts : List Account
  journalEntries : List JournalEntry
deriving DecidableEq, Repr

/-- Lexicographic `<=` on ISO date strings, as JavaScript compares them. -/
def strLe (a b : String) : Bool := a == b || decide (a < b)

/-- JavaScript `findIndex` followed by in-place assignment of `f x` at the
found index: rewrites the first element satisfying `p`, returning the new
element and the new list, or `none` when no element matches. -/
def replaceFirst (p : α → Bool) (f : α → α) : List α → Option (α × List α)
  | [] => none
  | x :: xs =>
    if p x then some (f x, f x :: xs)
    else
      match replaceFirst p f xs with
      | none => none
      | some (y, ys) => some (y, x :: ys)

/-- JavaScript `findIndex` followed by `splice(index, 1)`: removes the first
element satisfying `p`, or `none` when no element matches. -/
def removeFirst (p : α → Bool) : List α → Option (List α)
  | [] => none
  | x :: xs => if p x then some xs else (removeFirst p xs).map (x :: ·)

/-- Association-list read with the `get(k) || 0` defaulting used throughout
the source's report computations. -/
def mget (m : List (String × ℚ)) (k : String) : ℚ :=
  match m.find? (fun p => p.1 == k) with
  | some p => p.2
  | none => 0

/-- JavaScript `Map.set`: replace the value at an existing key in place, or
append a new binding. -/
def mset : List (String × ℚ) → String → ℚ → List (String × ℚ)
  | [], k, v => [(k, v)]
  | p :: rest, k, v => if p.1 == k then (k, v) :: rest else p :: mset rest k v

namespace Database

def getAccountById (st : Database) (id : String) : Option Account :=
  st.accounts.find? (fun acc => acc.id == id)

def getAccountByCode (st : Database) (code : String) : Option Account :=
  st.accounts.find? (fun acc => acc.code == code)

def getJournalEntryById (st : Database) (id : String) : Option JournalEntry :=
  st.journalEntries.find? (fun entry => entry.id == id)

/-- `updateAccount`: spreads `{...updates, updatedAt: now}` over the stored
account found by id. The REST handler always supplies the keys `name` and
`category` (possibly holding `undefined`), so both fields are overwritten
with the given optional values. -/
def updateAccount (st : Database) (id : String) (name category : Option String)
    (now : Nat) : Option Account × Database :=
  match replaceFirst (fun acc => acc.id == id)
      (fun acc => { acc with name := name, category := category, updatedAt := now })
      st.accounts with
  | none => (none, st)
  | some (acc, accs) => (some acc, { st with accounts := accs })

/-- `deleteAccount`: refuses when any journal line references the account,
otherwise removes the account found by id. -/
def deleteAccount (st : Database) (id : String) : Bool × Database :=
  let isUsed := st.journalEntries.any (fun entry =>
    entry.lines.any (fun line => line.accountId == id))
  if isUsed then (false, st)
  else
    match removeFirst (fun acc => acc.id == id) st.accounts with
    | none => (false, st)
    | some accs => (true, { st with accounts := accs })

/-- Request-body shape of one journal line as the handlers consume it. -/
structure LineInput where
  accountId : String
  debitAmount : ℚ
  creditAmount : ℚ
deriving DecidableEq, Repr

/-- Line construction inside `createJournalEntry`: fresh id, owning entry id,
and the denormalized `accountName` read through `account?.name`. -/
def buildLine (st : Database) (entryId lineId : String) (l : LineInput) : JournalLine :=
  { id := lineId
    journalEntryId := entryId
    accountId := l.accountId
    accountName := (st.getAccountById l.accountId).bind Account.name
    debitAmount := l.debitAmount
    creditAmount := l.creditAmount }

def buildLines (st : Database) (entryId : String) :
    List String → List LineInput → List JournalLine
  | _, [] => []
  | lineIds, l :: ls =>
    st.buildLine entryId (lineIds.headD "") l :: st.buildLines entryId lineIds.tail ls

/-- `createJournalEntry`: assigns ids, stamps timestamps, denormalizes
account names onto lines, and appends the entry. The stored entry has no
`isClosed` key, i.e. the flag reads back falsy. -/
def createJournalEntry (st : Database) (date description : String)
    (lines : List LineInput) (entryId : String) (lineIds : List String)
    (now : Nat) : JournalEntry × Database :=
  let newEntry : JournalEntry :=
    { id := entryId
      date := date
      description := description
      lines := st.buildLines entryId lineIds lines
      isClosed := false
      createdAt := now
      updatedAt := now }
  (newEntry, { st with journalEntries := st.journalEntries ++ [newEntry] })

/-- `updateJournalEntry`: spreads the patch over the entry found by id and
stamps `updatedAt`; no check of `isClosed` appears in the source. Modelled
for bodies that carry both `date` and `description`. -/
def updateJournalEntry (st : Database) (id date description : String)
    (now : Nat) : Option JournalEntry × Database :=
  match replaceFirst (fun entry => entry.id == id)
      (fun entry => { entry with date := date, description := description, updatedAt := now })
      st.journalEntries with
  | none => (none, st)
  | some (entry, entries) => (some entry, { st with journalEntries := entries })

/-- `deleteJournalEntry`: removes the entry found by id; no check of
`isClosed` appears in the source. -/
def deleteJournalEntry (st : Database) (id : String) : Bool × Database :=
  match removeFirst (fun entry => entry.id == id) st.journalEntries with
  | none => (false, st)
  | some entries => (true, { st with journalEntries := entries })

/-- The entry set every report starts from: all entries, or those with
`date <= asOfDate` when an as-of date is given. -/
def includedEntries (st : Database) (asOfDate : Option String) : List JournalEntry :=
  match asOfDate with
  | none => st.journalEntries
  | some d => st.journalEntries.filter (fun entry => strLe entry.date d)

/-- `getAccountBalance`: 0 for an unknown account; otherwise the signed sum
of this account's line amounts over the included entries, debit-normal for
asset/expense accounts and credit-normal otherwise. -/
def getAccountBalance (st : Database) (accountId : String)
    (asOfDate : Option String) : ℚ :=
  match st.getAccountById accountId with
  | none => 0
  | some account =>
    (st.includedEntries asOfDate).foldl
      (fun bal entry =>
        entry.lines.foldl
          (fun bal line =>
            if line.accountId == accountId then
              if account.type = AccountType.asset ∨ account.type = AccountType.expense then
                bal + (line.debitAmount - line.creditAmount)
              else
                bal + (line.creditAmount - line.debitAmount)
            else bal)
          bal)
      0

structure TrialBalance where
  totalDebit : ℚ
  totalCredit : ℚ
deriving DecidableEq, Repr

/-- `getTrialBalance`: per-account debit/credit maps initialized to 0 for
every account, accumulated over the included entries' lines, then totalled
over the account list. -/
def getTrialBalance (st : Database) (asOfDate : Option String) : TrialBalance :=
  let entries := st.includedEntries asOfDate
  let init : List (String × ℚ) := st.accounts.foldl (fun m acc => mset m acc.id 0) []
  let maps := entries.foldl
    (fun (maps : List (String × ℚ) × List (String × ℚ)) entry =>
      entry.lines.foldl
        (fun (maps : List (String × ℚ) × List (String × ℚ)) line =>
          (mset maps.1 line.accountId (mget maps.1 line.accountId + line.debitAmount),
           mset maps.2 line.accountId (mget maps.2 line.accountId + line.creditAmount)))
        maps)
    (init, init)
  let totals := st.accounts.foldl
    (fun (t : ℚ × ℚ) acc => (t.1 + mget maps.1 acc.id, t.2 + mget maps.2 acc.id))
    (0, 0)
  { totalDebit := totals.1, totalCredit := totals.2 }

structure BalanceSheet where
  assets : ℚ
  liabilities : ℚ
  equity : ℚ
deriving DecidableEq, Repr

/-- `getBalanceSheet`: raw `(debit - credit)` balance per account over the
included entries, then aggregated by account type. The expense branch adds
the raw balance into equity (`equity += balance`) even though the source's
own comment says expense decreases equity. -/
def getBalanceSheet (st : Database) (asOfDate : Option String) : BalanceSheet :=
  let entries := st.includedEntries asOfDate
  let init : List (String × ℚ) := st.accounts.foldl (fun m acc => mset m acc.id 0) []
  let balances := entries.foldl
    (fun m entry =>
      entry.lines.foldl
        (fun m line =>
          mset m line.accountId (mget m line.accountId + line.debitAmount - line.creditAmount))
        m)
    init
  st.accounts.foldl
    (fun (bs : BalanceSheet) acc =>
      let b := mget balances acc.id
      match acc.type with
      | AccountType.asset => { bs with assets := bs.assets + b }
      | AccountType.liability => { bs with liabilities := bs.liabilities - b }
      | AccountType.equity => { bs with equity := bs.equity - b }
      | AccountType.revenue => { bs with equity := bs.equity - b }
      | AccountType.expense => { bs with equity := bs.equity + b })
    { assets := 0, liabilities := 0, equity := 0 }

end Database

/-- Error outcomes of `POST /journal-entries`, in the handler's own order. -/
inductive ApiError
  | missingFields
  | tooFewLines
  | accountNotFound (accountId : String)
  | unbalanced
  | ambiguousLine
deriving DecidableEq, Repr

/-- JavaScript falsiness of an optional string field: absent or empty. -/
def strFalsy : Option String → Bool
  | none => true
  | some s => s == ""

/-- Request body of `POST /journal-entries` as the handler destructures it. -/
structure JournalEntryBody where
  date : Option String
  description : Option String
  lines : Option (List Database.LineInput)
deriving DecidableEq, Repr

/-- `POST /journal-entries`: field presence, then line count, then account
resolution, then the 0.01 balance tolerance, then the both-sides-positive
line check, and only then the store write. Every rejection path returns
before the store is touched. -/
def postJournalEntry (st : Database) (body : JournalEntryBody) (entryId : String)
    (lineIds : List String) (now : Nat) : Except ApiError JournalEntry × Database :=
  if strFalsy body.date || strFalsy body.description || body.lines.isNone then
    (Except.error ApiError.missingFields, st)
  else
    let lines := body.lines.getD []
    if lines.length < 2 then (Except.error ApiError.tooFewLines, st)
    else
      match lines.find? (fun l => (st.getAccountById l.accountId).isNone) with
      | some l => (Except.error (ApiError.accountNotFound l.accountId), st)
      | none =>
        let totalDebit : ℚ := lines.foldl (fun s l => s + l.debitAmount) 0
        let totalCredit : ℚ := lines.foldl (fun s l => s + l.creditAmount) 0
        if 1 / 100 < |totalDebit - totalCredit| then
          (Except.error ApiError.unbalanced, st)
        else if lines.any (fun l => decide (0 < l.debitAmount) && decide (0 < l.creditAmount)) then
          (Except.error ApiError.ambiguousLine, st)
        else
          let r := st.createJournalEntry (body.date.getD "") (body.description.getD "")
            lines entryId lineIds now
          (Except.ok r.1, r.2)

/-- Request body of `PUT /accounts/:id`; the handler destructures only
`name` and `category`, so `code` and `type` present in the body are dropped
before the store is reached. -/
structure AccountPatchBody where
  name : Option String
  category : Option String
  code : Option String
  type : Option AccountType
deriving DecidableEq, Repr

/-- `PUT /accounts/:id`: passes exactly `{ name, category }` from the body
to `updateAccount` — both keys always present, holding `undefined` when the
body omits them. -/
def putAccount (st : Database) (id : String) (body : AccountPatchBody)
    (now : Nat) : Option Account × Database :=
  st.updateAccount id body.name body.category now

/-- Code, name, type and category of the seeded standard chart of accounts. -/
structure AccountSpec where
  code : String
  name : String
  type : AccountType
  category : String

def standardAccountSpecs : List AccountSpec :=
  [⟨"100", "現金", AccountType.asset, "流動資産"⟩,
   ⟨"101", "預金", AccountType.asset, "流動資産"⟩,
   ⟨"110", "売掛金", AccountType.asset, "流動資産"⟩,
   ⟨"120", "商品", AccountType.asset, "流動資産"⟩,
   ⟨"150", "備品", AccountType.asset, "固定資産"⟩,
   ⟨"160", "建物", AccountType.asset, "固定資産"⟩,
   ⟨"200", "買掛金", AccountType.liability, "流動負債"⟩,
   ⟨"210", "未払金", AccountType.liability, "流動負債"⟩,
   ⟨"250", "借入金", AccountType.liability, "固定負債"⟩,
   ⟨"300", "資本金", AccountType.equity, "資本金"⟩,
   ⟨"310", "利益剰余金", AccountType.equity, "剰余金"⟩,
   ⟨"400", "売上", AccountType.revenue, "売上高"⟩,
   ⟨"410", "雑収入", AccountType.revenue, "営業外収益"⟩,
   ⟨"500", "仕入", AccountType.expense, "売上原価"⟩,
   ⟨"510", "給料", AccountType.expense, "販売費及び一般管理費"⟩,
   ⟨"520", "広告宣伝費", AccountType.expense, "販売費及び一般管理費"⟩,
   ⟨"530", "旅費交通費", AccountType.expense, "販売費及び一般管理費"⟩,
   ⟨"540", "消耗品費", AccountType.expense, "販売費及び一般管理費"⟩,
   ⟨"550", "減価償却費", AccountType.expense, "販売費及び一般管理費"⟩]

/-- The seeded accounts, with the opaque generated uuids supplied as `ids`. -/
def mkInitialAccounts (ids : List String) (now : Nat) : List Account :=
  List.zipWith
    (fun (s : AccountSpec) (i : String) =>
      { id := i, code := s.code, name := some s.name, type := s.type,
        category := some s.category, parentId := none,
        createdAt := now, updatedAt := now })
    standardAccountSpecs ids

/-- The store at startup: standard accounts, empty journal. -/
def mkInitialDatabase (ids : List String) (now : Nat) : Database :=
  { accounts := mkInitialAccounts ids now, journalEntries := [] }

/-- Folding a journal-entry create request stream through the POST handler:
the store evolves only by the successful writes, since every rejected
request returns the store untouched. -/
def applyRequests (st : Database) : List (JournalEntryBody × String × List String × Nat) → Database
  | [] => st
  | r :: rs => applyRequests (postJournalEntry st r.1 r.2.1 r.2.2.1 r.2.2.2).2 rs

/-! ### Generic helper lemmas about folds, association-list maps and the
first-match list surgeries used by the store. -/

theorem foldl_add_eq (f : α → ℚ) (xs : List α) : ∀ a : ℚ,
    xs.foldl (fun s x => s + f x) a = a + (xs.map f).sum := by
  induction xs with
  | nil => intro a; simp
  | cons x xs ih => intro a; simp [ih, add_assoc]

theorem mget_nil (k : String) : mget [] k = 0 := rfl

theorem mget_cons (p : String × ℚ) (m : List (String × ℚ)) (k : String) :
    mget (p :: m) k = if p.1 = k then p.2 else mget m k := by
  simp only [mget, List.find?_cons]
  by_cases h : p.1 = k
  · simp [h]
  · have hb : (p.1 == k) = false := by simp [beq_iff_eq, h]
    simp [h, hb]

theorem mget_mset (m : List (String × ℚ)) (k : String) (v : ℚ) (k2 : String) :
    mget (mset m k v) k2 = if k = k2 then v else mget m k2 := by
  induction m with
  | nil => simp [mset, mget_cons, mget_nil]
  | cons p rest ih =>
    simp only [mset]
    by_cases h : p.1 = k
    · simp only [h, beq_self_eq_true, if_true, mget_cons]
      by_cases h2 : k = k2 <;> simp [h, h2]
    · simp only [beq_iff_eq, h, if_false, mget_cons, ih]
      by_cases h2 : p.1 = k2
      · have : ¬ k = k2 := fun hk => h (hk ▸ h2)
        simp [h2, this]
      · simp [h2]

/-- Every value stored in the map is zero. -/
def allZero (m : List (String × ℚ)) : Prop := ∀ p ∈ m, p.2 = 0

theorem allZero_nil : allZero [] := by intro p hp; cases hp

theorem mget_allZero {m : List (String × ℚ)} (h : allZero m) (k : String) :
    mget m k = 0 := by
  induction m with
  | nil => rfl
  | cons p rest ih =>
    rw [mget_cons]
    by_cases hk : p.1 = k
    · simpa [hk] using h p (List.mem_cons_self p rest)
    · simp only [hk, if_false]
      exact ih (fun q hq => h q (List.mem_cons_of_mem p hq))

theorem allZero_mset {m : List (String × ℚ)} (h : allZero m) (k : String) :
    allZero (mset m k 0) := by
  induction m with
  | nil =>
    intro p hp
    simp only [mset, List.mem_singleton] at hp
    simp [hp]
  | cons q rest ih =>
    intro p hp
    simp only [mset] at hp
    by_cases hq : q.1 = k
    · simp only [hq, beq_self_eq_true, if_true] at hp
      rcases List.mem_cons.mp hp with h1 | h1
      · simp [h1]
      · exact h p (List.mem_cons_of_mem q h1)
    · simp only [beq_iff_eq, hq, if_false] at hp
      rcases List.mem_cons.mp hp with h1 | h1
      · exact h p (h1 ▸ List.mem_cons_self q rest)
      · exact ih (fun r hr => h r (List.mem_cons_of_mem q hr)) p h1

theorem allZero_initMap (accs : List Account) : ∀ (m : List (String × ℚ)),
    allZero m → allZero (accs.foldl (fun m acc => mset m acc.id 0) m) := by
  induction accs with
  | nil => intro m h; simpa using h
  | cons a accs ih => intro m h; exact ih _ (allZero_mset h a.id)

/-- Sum of the map's values read back over a list of accounts — the shape of
the totalling loops at the end of the report computations. -/
def sumOver (m : List (String × ℚ)) (accs : List Account) : ℚ :=
  (accs.map (fun acc => mget m acc.id)).sum

theorem sumOver_allZero {m : List (String × ℚ)} (h : allZero m) (accs : List Account) :
    sumOver m accs = 0 := by
  induction accs with
  | nil => rfl
  | cons a accs ih => simp [sumOver, mget_allZero h]

theorem sumOver_mset_mem {accs : List Account} {k : String}
    (hnd : (accs.map Account.id).Nodup) (hk : k ∈ accs.map Account.id)
    (m : List (String × ℚ)) (v : ℚ) :
    sumOver (mset m k v) accs = sumOver m accs - mget m k + v := by
  induction accs with
  | nil => cases hk
  | cons a accs ih =>
    simp only [List.map_cons, List.nodup_cons] at hnd
    simp only [List.map_cons] at hk
    simp only [sumOver, List.map_cons, List.sum_cons]
    by_cases h : k = a.id
    · subst h
      have htail : ∀ b ∈ accs, mget (mset m a.id v) b.id = mget m b.id := by
        intro b hb
        rw [mget_mset]
        have hne : a.id ≠ b.id := by
          intro hkb
          apply hnd.1
          rw [hkb]
          exact List.mem_map_of_mem Account.id hb
        simp [hne]
      rw [mget_mset]
      rw [List.map_congr_left htail]
      simp only [eq_self_iff_true, if_true]
      ring
    · have hk2 : k ∈ accs.map Account.id := by
        rcases List.mem_cons.mp hk with h1 | h1
        · exact absurd h1 h
        · exact h1
      rw [mget_mset]
      simp only [if_neg h]
      have hih := ih hnd.2 hk2
      simp only [sumOver] at hih
      rw [hih]
      ring

/-! ### Characterization of `getTrialBalance` as plain sums. -/

/-- One accumulation step of the trial-balance line loop, for a chosen
amount projection. -/
def tbStep (f : JournalLine → ℚ) (m : List (String × ℚ)) (l : JournalLine) :
    List (String × ℚ) :=
  mset m l.accountId (mget m l.accountId + f l)

theorem tb_lines_fold_split (lines : List JournalLine) :
    ∀ (maps : List (String × ℚ) × List (String × ℚ)),
    lines.foldl
      (fun (maps : List (String × ℚ) × List (String × ℚ)) line =>
        (mset maps.1 line.accountId (mget maps.1 line.accountId + line.debitAmount),
         mset maps.2 line.accountId (mget maps.2 line.accountId + line.creditAmount)))
      maps
    = (lines.foldl (tbStep (fun l => l.debitAmount)) maps.1,
       lines.foldl (tbStep (fun l => l.creditAmount)) maps.2) := by
  induction lines with
  | nil => intro maps; rfl
  | cons l lines ih => intro maps; simp only [List.foldl_cons]; exact ih _

theorem tb_entries_fold_split (entries : List JournalEntry) :
    ∀ (maps : List (String × ℚ) × List (String × ℚ)),
    entries.foldl
      (fun (maps : List (String × ℚ) × List (String × ℚ)) entry =>
        entry.lines.foldl
          (fun (maps : List (String × ℚ) × List (String × ℚ)) line =>
            (mset maps.1 line.accountId (mget maps.1 line.accountId + line.debitAmount),
             mset maps.2 line.accountId (mget maps.2 line.accountId + line.creditAmount)))
          maps)
      maps
    = (entries.foldl (fun m e => e.lines.foldl (tbStep (fun l => l.debitAmount)) m) maps.1,
       entries.foldl (fun m e => e.lines.foldl (tbStep (fun l => l.creditAmount)) m) maps.2) := by
  induction entries with
  | nil => intro maps; rfl
  | cons e entries ih =>
    intro maps
    simp only [List.foldl_cons]
    rw [tb_lines_fold_split]
    exact ih _

theorem sumOver_tbStep_fold {accs : List Account}
    (hnd : (accs.map Account.id).Nodup) (f : JournalLine → ℚ)
    (lines : List JournalLine)
    (hres : ∀ l ∈ lines, l.accountId ∈ accs.map Account.id) :
    ∀ m, sumOver (lines.foldl (tbStep f) m) accs
      = sumOver m accs + (lines.map f).sum := by
  induction lines with
  | nil => intro m; simp
  | cons l lines ih =>
    intro m
    simp only [List.foldl_cons, List.map_cons, List.sum_cons]
    rw [ih (fun x hx => hres x (List.mem_cons_of_mem l hx))]
    unfold tbStep
    rw [sumOver_mset_mem hnd (hres l (List.mem_cons_self l lines))]
    ring

theorem sumOver_tb_entries_fold {accs : List Account}
    (hnd : (accs.map Account.id).Nodup) (f : JournalLine → ℚ)
    (entries : List JournalEntry)
    (hres : ∀ e ∈ entries, ∀ l ∈ e.lines, l.accountId ∈ accs.map Account.id) :
    ∀ m, sumOver (entries.foldl (fun m e => e.lines.foldl (tbStep f) m) m) accs
      = sumOver m accs + (entries.map (fun e => (e.lines.map f).sum)).sum := by
  induction entries with
  | nil => intro m; simp
  | cons e entries ih =>
    intro m
    simp only [List.foldl_cons, List.map_cons, List.sum_cons]
    rw [ih (fun x hx => hres x (List.mem_cons_of_mem e hx))]
    rw [sumOver_tbStep_fold hnd f e.lines (hres e (List.mem_cons_self e entries))]
    ring

/-- Sum of all line debit amounts of an entry. -/
def entryDebitSum (e : JournalEntry) : ℚ := (e.lines.map (fun l => l.debitAmount)).sum

/-- Sum of all line credit amounts of an entry. -/
def entryCreditSum (e : JournalEntry) : ℚ := (e.lines.map (fun l => l.creditAmount)).sum

/-- With distinct account ids and every line resolving to a listed account,
the map-based trial balance computes the plain debit and credit sums over
the included entries. -/
theorem getTrialBalance_eq (st : Database) (asOfDate : Option String)
    (hnd : (st.accounts.map Account.id).Nodup)
    (hres : ∀ e ∈ st.journalEntries, ∀ l ∈ e.lines,
      l.accountId ∈ st.accounts.map Account.id) :
    st.getTrialBalance asOfDate =
      { totalDebit := ((st.includedEntries asOfDate).map entryDebitSum).sum,
        totalCredit := ((st.includedEntries asOfDate).map entryCreditSum).sum } := by
  have hresIncl : ∀ e ∈ st.includedEntries asOfDate, ∀ l ∈ e.lines,
      l.accountId ∈ st.accounts.map Account.id := by
    intro e he
    apply hres
    unfold Database.includedEntries at he
    cases asOfDate with
    | none => exact he
    | some d => exact (List.mem_filter.mp he).1
  have hzero : allZero (st.accounts.foldl (fun m acc => mset m acc.id 0) []) :=
    allZero_initMap st.accounts [] allZero_nil
  simp only [Database.getTrialBalance]
  rw [tb_entries_fold_split]
  have htotal : ∀ (m1 m2 : List (String × ℚ)),
      st.accounts.foldl (fun (t : ℚ × ℚ) acc => (t.1 + mget m1 acc.id, t.2 + mget m2 acc.id)) (0, 0)
        = (sumOver m1 st.accounts, sumOver m2 st.accounts) := by
    intro m1 m2
    have hsplit : ∀ (accs : List Account) (t : ℚ × ℚ),
        accs.foldl (fun (t : ℚ × ℚ) acc => (t.1 + mget m1 acc.id, t.2 + mget m2 acc.id)) t
          = (accs.foldl (fun s acc => s + mget m1 acc.id) t.1,
             accs.foldl (fun s acc => s + mget m2 acc.id) t.2) := by
      intro accs
      induction accs with
      | nil => intro t; rfl
      | cons a accs ih => intro t; simp only [List.foldl_cons]; exact ih _
    rw [hsplit]
    rw [foldl_add_eq (fun acc => mget m1 acc.id) st.accounts 0,
        foldl_add_eq (fun acc => mget m2 acc.id) st.accounts 0]
    simp [sumOver]
  rw [htotal]
  rw [sumOver_tb_entries_fold hnd _ _ hresIncl,
      sumOver_tb_entries_fold hnd _ _ hresIncl]
  rw [sumOver_allZero hzero]
  simp only [zero_add]
  rfl

/-! ### The journal-entry POST handler: case analysis and state effects. -/

theorem buildLines_map_debit (st : Database) (entryId : String)
    (ls : List Database.LineInput) : ∀ (lineIds : List String),
    (st.buildLines entryId lineIds ls).map (fun l => l.debitAmount)
      = ls.map (fun l => l.debitAmount) := by
  induction ls with
  | nil => intro lineIds; rfl
  | cons l ls ih =>
    intro lineIds
    simp [Database.buildLines, Database.buildLine, ih]

theorem buildLines_map_credit (st : Database) (entryId : String)
    (ls : List Database.LineInput) : ∀ (lineIds : List String),
    (st.buildLines entryId lineIds ls).map (fun l => l.creditAmount)
      = ls.map (fun l => l.creditAmount) := by
  induction ls with
  | nil => intro lineIds; rfl
  | cons l ls ih =>
    intro lineIds
    simp [Database.buildLines, Database.buildLine, ih]

theorem buildLines_map_accountId (st : Database) (entryId : String)
    (ls : List Database.LineInput) : ∀ (lineIds : List String),
    (st.buildLines entryId lineIds ls).map (fun l => l.accountId)
      = ls.map (fun l => l.accountId) := by
  induction ls with
  | nil => intro lineIds; rfl
  | cons l ls ih =>
    intro lineIds
    simp [Database.buildLines, Database.buildLine, ih]

/-- Complete case analysis of the POST handler: either some validation step
rejected and the store is returned untouched, or every validation step
passed and the result is exactly the store write. -/
theorem postJournalEntry_spec (st : Database) (body : JournalEntryBody)
    (entryId : String) (lineIds : List String) (now : Nat) :
    (∃ err, postJournalEntry st body entryId lineIds now = (Except.error err, st)) ∨
    (∃ lines, body.lines = some lines ∧
      2 ≤ lines.length ∧
      (∀ l ∈ lines, (st.getAccountById l.accountId).isSome) ∧
      |(lines.map (fun l => l.debitAmount)).sum - (lines.map (fun l => l.creditAmount)).sum| ≤ 1 / 100 ∧
      (∀ l ∈ lines, ¬(0 < l.debitAmount ∧ 0 < l.creditAmount)) ∧
      postJournalEntry st body entryId lineIds now
        = (Except.ok (st.createJournalEntry (body.date.getD "") (body.description.getD "")
              lines entryId lineIds now).1,
           (st.createJournalEntry (body.date.getD "") (body.description.getD "")
              lines entryId lineIds now).2)) := by
  simp only [postJournalEntry]
  split
  · exact Or.inl ⟨ApiError.missingFields, rfl⟩
  case isFalse hfields =>
  split
  · exact Or.inl ⟨ApiError.tooFewLines, rfl⟩
  case isFalse hlen =>
  split
  case h_1 l heq => exact Or.inl ⟨ApiError.accountNotFound l.accountId, rfl⟩
  case h_2 hfind =>
  split
  · exact Or.inl ⟨ApiError.unbalanced, rfl⟩
  case isFalse hbal =>
  split
  · exact Or.inl ⟨ApiError.ambiguousLine, rfl⟩
  case isFalse hamb =>
  right
  have hlines : ∃ lines, body.lines = some lines := by
    rcases hl : body.lines with _ | lines
    · exfalso
      apply hfields
      simp [hl]
    · exact ⟨lines, rfl⟩
  rcases hlines with ⟨lines, hl⟩
  refine ⟨lines, hl, ?_, ?_, ?_, ?_, ?_⟩
  · rw [hl] at hlen
    simpa using Nat.le_of_not_lt hlen
  · intro l hlmem
    rw [hl] at hfind
    simp only [Option.getD_some] at hfind
    have h2 := List.find?_eq_none.mp hfind l hlmem
    cases hopt : st.getAccountById l.accountId with
    | none => exact absurd (by simp [hopt]) h2
    | some a => simp [hopt]
  · rw [hl] at hbal
    simp only [Option.getD_some] at hbal
    rw [foldl_add_eq (fun l => l.debitAmount) lines 0,
        foldl_add_eq (fun l => l.creditAmount) lines 0, zero_add, zero_add] at hbal
    exact le_of_not_lt hbal
  · intro l hlmem hcon
    apply hamb
    rw [hl]
    simp only [Option.getD_some]
    refine List.any_eq_true.mpr ⟨l, hlmem, ?_⟩
    simp [hcon.1, hcon.2]
  · rw [hl]
    rfl

theorem getAccountById_isSome_iff (st : Database) (id : String) :
    (st.getAccountById id).isSome = true ↔ id ∈ st.accounts.map Account.id := by
  unfold Database.getAccountById
  rw [List.find?_isSome]
  constructor
  · rintro ⟨a, ha, hp⟩
    simp only [beq_iff_eq] at hp
    rw [← hp]
    exact List.mem_map_of_mem Account.id ha
  · intro h
    rcases List.mem_map.mp h with ⟨a, ha, hid⟩
    exact ⟨a, ha, by simp [beq_iff_eq, hid]⟩

theorem mem_of_mem_includedEntries {st : Database} {asOfDate : Option String}
    {e : JournalEntry} (h : e ∈ st.includedEntries asOfDate) :
    e ∈ st.journalEntries := by
  unfold Database.includedEntries at h
  cases asOfDate with
  | none => exact h
  | some d => exact (List.mem_filter.mp h).1

/-- Invariants holding in every store reachable by create requests from the
seeded store: distinct account ids, every stored line resolving to a listed
account, and every stored entry balanced within the write-time tolerance. -/
def Database.WellFormed (st : Database) : Prop :=
  (st.accounts.map Account.id).Nodup ∧
  (∀ e ∈ st.journalEntries, ∀ l ∈ e.lines, l.accountId ∈ st.accounts.map Account.id) ∧
  (∀ e ∈ st.journalEntries, |entryDebitSum e - entryCreditSum e| ≤ 1 / 100)

theorem postJournalEntry_preserves_wf (st : Database) (body : JournalEntryBody)
    (entryId : String) (lineIds : List String) (now : Nat)
    (hwf : st.WellFormed) :
    (postJournalEntry st body entryId lineIds now).2.WellFormed := by
  rcases postJournalEntry_spec st body entryId lineIds now with
    ⟨err, heq⟩ | ⟨lines, hl, hlen2, hres, hbal, hamb, heq⟩
  · rw [heq]; exact hwf
  · rw [heq]
    simp only [Database.createJournalEntry]
    refine ⟨hwf.1, ?_, ?_⟩
    · intro e he l hle
      rcases List.mem_append.mp he with h1 | h1
      · exact hwf.2.1 e h1 l hle
      · have he2 := List.mem_singleton.mp h1
        subst he2
        simp only at hle
        have : l.accountId ∈ (st.buildLines entryId lineIds lines).map
            (fun l => l.accountId) := List.mem_map_of_mem _ hle
        rw [buildLines_map_accountId] at this
        rcases List.mem_map.mp this with ⟨li, hli, hid⟩
        rw [← hid]
        exact (getAccountById_isSome_iff st li.accountId).mp (hres li hli)
    · intro e he
      rcases List.mem_append.mp he with h1 | h1
      · exact hwf.2.2 e h1
      · have he2 := List.mem_singleton.mp h1
        subst he2
        simp only [entryDebitSum, entryCreditSum]
        rw [buildLines_map_debit, buildLines_map_credit]
        exact hbal

theorem applyRequests_wf (reqs : List (JournalEntryBody × String × List String × Nat)) :
    ∀ st : Database, st.WellFormed → (applyRequests st reqs).WellFormed := by
  induction reqs with
  | nil => intro st h; exact h
  | cons r rs ih =>
    intro st h
    exact ih _ (postJournalEntry_preserves_wf st r.1 r.2.1 r.2.2.1 r.2.2.2 h)

theorem zipAccounts_map_id (specs : List AccountSpec) (now : Nat) :
    ∀ ids : List String,
    (List.zipWith
      (fun (s : AccountSpec) (i : String) =>
        ({ id := i, code := s.code, name := some s.name, type := s.type,
           category := some s.category, parentId := none,
           createdAt := now, updatedAt := now } : Account))
      specs ids).map Account.id = ids.take specs.length := by
  induction specs with
  | nil => intro ids; simp
  | cons s specs ih =>
    intro ids
    cases ids with
    | nil => simp
    | cons i ids => simp [ih]

theorem mkInitialDatabase_wf (ids : List String) (now : Nat) (hids : ids.Nodup) :
    (mkInitialDatabase ids now).WellFormed := by
  refine ⟨?_, ?_, ?_⟩
  · show ((mkInitialAccounts ids now).map Account.id).Nodup
    unfold mkInitialAccounts
    rw [zipAccounts_map_id]
    exact (List.take_sublist _ _).nodup hids
  · intro e he
    cases he
  · intro e he
    cases he

theorem abs_sum_sub_sum_le (entries : List JournalEntry)
    (h : ∀ e ∈ entries, |entryDebitSum e - entryCreditSum e| ≤ 1 / 100) :
    |(entries.map entryDebitSum).sum - (entries.map entryCreditSum).sum|
      ≤ entries.length * (1 / 100) := by
  induction entries with
  | nil => simp
  | cons e entries ih =>
    simp only [List.map_cons, List.sum_cons, List.length_cons]
    have h1 := h e (List.mem_cons_self e entries)
    have h2 := ih (fun x hx => h x (List.mem_cons_of_mem e hx))
    have hsplit : entryDebitSum e + (entries.map entryDebitSum).sum
        - (entryCreditSum e + (entries.map entryCreditSum).sum)
        = (entryDebitSum e - entryCreditSum e)
          + ((entries.map entryDebitSum).sum - (entries.map entryCreditSum).sum) := by
      ring
    rw [hsplit]
    calc |(entryDebitSum e - entryCreditSum e)
          + ((entries.map entryDebitSum).sum - (entries.map entryCreditSum).sum)|
        ≤ |entryDebitSum e - entryCreditSum e|
          + |(entries.map entryDebitSum).sum - (entries.map entryCreditSum).sum| := abs_add _ _
      _ ≤ 1 / 100 + entries.length * (1 / 100) := add_le_add h1 h2
      _ = (entries.length + 1) * (1 / 100) := by ring
      _ = ((entries.length + 1 : ℕ) : ℚ) * (1 / 100) := by push_cast; ring

/-! ### Concrete stores and request bodies used by counterexamples and
witnesses. -/

/-- Two distinct stand-ins for the generated account uuids. -/
def cexIds : List String := ["i1", "i2"]

/-- Seeded store truncated to the first two standard accounts
(`100`/現金 and `101`/預金, both assets). -/
def cexSt0 : Database := mkInitialDatabase cexIds 0

/-- An entry accepted at the boundary of the 0.01 write tolerance:
debit 10 against credit 10.01. -/
def cexBodyTol : JournalEntryBody :=
  { date := some "2024-01-15", description := some "tolerance boundary",
    lines := some [⟨"i1", 10, 0⟩, ⟨"i2", 0, 1001 / 100⟩] }

/-- A single-line submission, rejected by the line-count check. -/
def cexBodyOneLine : JournalEntryBody :=
  { date := some "2024-01-15", description := some "single line",
    lines := some [⟨"i1", 10, 0⟩] }

/-- An exactly balanced two-line submission. -/
def wBodyBal : JournalEntryBody :=
  { date := some "2024-01-15", description := some "balanced",
    lines := some [⟨"i1", 10, 0⟩, ⟨"i2", 0, 10⟩] }

/-- C1 counterexample: a journal entry whose debit and credit sums differ by
exactly 0.01 is successfully created (the handler rejects only differences
strictly above 0.01), after which the trial balance has
totalDebit = 10 ≠ 10.01 = totalCredit — so equality does not hold after
every successful write. -/
theorem trialBalance_equality_counterexample :
    (postJournalEntry cexSt0 cexBodyTol "E1" ["L1", "L2"] 1).1.toOption.isSome = true ∧
    ((postJournalEntry cexSt0 cexBodyTol "E1" ["L1", "L2"] 1).2.getTrialBalance none).totalDebit = 10 ∧
    ((postJournalEntry cexSt0 cexBodyTol "E1" ["L1", "L2"] 1).2.getTrialBalance none).totalCredit = 1001 / 100 ∧
    ¬ ((postJournalEntry cexSt0 cexBodyTol "E1" ["L1", "L2"] 1).2.getTrialBalance none).totalDebit
        = ((postJournalEntry cexSt0 cexBodyTol "E1" ["L1", "L2"] 1).2.getTrialBalance none).totalCredit := by
  norm_num +decide [postJournalEntry, cexSt0, cexBodyTol, cexIds, mkInitialDatabase,
    mkInitialAccounts, standardAccountSpecs, strFalsy, Database.getAccountById,
    Database.createJournalEntry, Database.buildLines, Database.buildLine,
    Database.getTrialBalance, Database.includedEntries, mset, mget, lt_abs]

/-- C1 (amended): for any sequence of journal-entry create requests applied
to the seeded store (with its distinct generated account ids) and every
optional as-of date, the trial balance's totalDebit and totalCredit agree
within 0.01 times the number of included entries — each successful write
guarantees its entry balances only within the 0.01 tolerance, and the
slack adds up across entries; exact equality holds when every accepted
entry balances exactly. -/
theorem trialBalance_totals_within_tolerance (ids : List String) (now0 : Nat)
    (reqs : List (JournalEntryBody × String × List String × Nat))
    (asOfDate : Option String) (hids : ids.Nodup) :
    |((applyRequests (mkInitialDatabase ids now0) reqs).getTrialBalance asOfDate).totalDebit
      - ((applyRequests (mkInitialDatabase ids now0) reqs).getTrialBalance asOfDate).totalCredit|
      ≤ ((applyRequests (mkInitialDatabase ids now0) reqs).includedEntries asOfDate).length
          * (1 / 100) := by
  have hwf := applyRequests_wf reqs _ (mkInitialDatabase_wf ids now0 hids)
  rw [getTrialBalance_eq _ asOfDate hwf.1 hwf.2.1]
  exact abs_sum_sub_sum_le _ (fun e he => hwf.2.2 e (mem_of_mem_includedEntries he))

/-- Witness for the amended C1 theorem at a concrete balanced request. -/
theorem trialBalance_totals_within_tolerance_witness :
    (["i1", "i2"] : List String).Nodup ∧
    |((applyRequests (mkInitialDatabase ["i1", "i2"] 0)
          [(wBodyBal, "E1", ["L1", "L2"], 1)]).getTrialBalance none).totalDebit
      - ((applyRequests (mkInitialDatabase ["i1", "i2"] 0)
          [(wBodyBal, "E1", ["L1", "L2"], 1)]).getTrialBalance none).totalCredit|
      ≤ ((applyRequests (mkInitialDatabase ["i1", "i2"] 0)
          [(wBodyBal, "E1", ["L1", "L2"], 1)]).includedEntries none).length * (1 / 100) :=
  ⟨by decide,
   trialBalance_totals_within_tolerance ["i1", "i2"] 0
     [(wBodyBal, "E1", ["L1", "L2"], 1)] none (by decide)⟩

/-- C2: a journal-entry create request that fails any validation step
(missing fields, fewer than two lines, an unresolvable accountId, the
balance check, or the ambiguous-line check) leaves the store completely
unmodified. -/
theorem postJournalEntry_error_leaves_state_unchanged (st : Database)
    (body : JournalEntryBody) (entryId : String) (lineIds : List String)
    (now : Nat) (err : ApiError)
    (h : (postJournalEntry st body entryId lineIds now).1 = Except.error err) :
    (postJournalEntry st body entryId lineIds now).2 = st := by
  rcases postJournalEntry_spec st body entryId lineIds now with
    ⟨err2, heq⟩ | ⟨lines, _, _, _, _, _, heq⟩
  · rw [heq]
  · rw [heq] at h
    simp at h

/-- Witness for C2 at a concrete rejected single-line request. -/
theorem postJournalEntry_error_leaves_state_unchanged_witness :
    (postJournalEntry cexSt0 cexBodyOneLine "E1" ["L1"] 1).1
        = Except.error ApiError.tooFewLines ∧
    (postJournalEntry cexSt0 cexBodyOneLine "E1" ["L1"] 1).2 = cexSt0 :=
  ⟨rfl,
   postJournalEntry_error_leaves_state_unchanged cexSt0 cexBodyOneLine "E1" ["L1"] 1
     ApiError.tooFewLines rfl⟩

/-- A submission violating both the exactly-one-side rule (first line has
debit 10 and credit 5) and the balance rule (totals 10 against 8). -/
def cexBodyBoth : JournalEntryBody :=
  { date := some "2024-01-15", description := some "both violations",
    lines := some [⟨"i1", 10, 5⟩, ⟨"i2", 0, 3⟩] }

/-- C3 counterexample: a submission that violates both the exactly-one-side
line rule and the balance rule is rejected with the unbalanced error, not
the ambiguous-line error — so the exactly-one-side check does not precede
the balance check. -/
theorem balance_checked_before_ambiguous_counterexample :
    (postJournalEntry cexSt0 cexBodyBoth "E1" ["L1", "L2"] 1).1
        = Except.error ApiError.unbalanced ∧
    ¬ (postJournalEntry cexSt0 cexBodyBoth "E1" ["L1", "L2"] 1).1
        = Except.error ApiError.ambiguousLine := by
  norm_num +decide [postJournalEntry, cexSt0, cexBodyBoth, cexIds, mkInitialDatabase,
    mkInitialAccounts, standardAccountSpecs, strFalsy, Database.getAccountById, lt_abs]

/-- C3 (amended): the handler checks the balance law before the
exactly-one-side line check — when the structural and referential checks
pass and the submission both contains a line with debit and credit
simultaneously positive and has total debits and credits apart by more
than the 0.01 tolerance, the returned error is the unbalanced one, not the
ambiguous-line one. -/
theorem unbalanced_error_precedes_ambiguous (st : Database) (body : JournalEntryBody)
    (entryId : String) (lineIds : List String) (now : Nat)
    (lines : List Database.LineInput)
    (hdate : strFalsy body.date = false)
    (hdesc : strFalsy body.description = false)
    (hl : body.lines = some lines)
    (hlen : 2 ≤ lines.length)
    (hres : ∀ l ∈ lines, (st.getAccountById l.accountId).isSome)
    (hamb : ∃ l ∈ lines, 0 < l.debitAmount ∧ 0 < l.creditAmount)
    (hbal : 1 / 100 < |(lines.map (fun l => l.debitAmount)).sum
        - (lines.map (fun l => l.creditAmount)).sum|) :
    (postJournalEntry st body entryId lineIds now).1
      = Except.error ApiError.unbalanced := by
  have hc1 : (strFalsy body.date || strFalsy body.description || body.lines.isNone) = false := by
    simp [hdate, hdesc, hl]
  have hc2 : ¬ lines.length < 2 := Nat.not_lt.mpr hlen
  have hfind : lines.find? (fun l => (st.getAccountById l.accountId).isNone) = none := by
    apply List.find?_eq_none.mpr
    intro l hlmem
    have hsome := hres l hlmem
    cases hopt : st.getAccountById l.accountId with
    | none => rw [hopt] at hsome; cases hsome
    | some a => simp [hopt]
  have hbal2 : 1 / 100 < |lines.foldl (fun s l => s + l.debitAmount) 0
      - lines.foldl (fun s l => s + l.creditAmount) 0| := by
    rw [foldl_add_eq (fun l => l.debitAmount) lines 0,
        foldl_add_eq (fun l => l.creditAmount) lines 0, zero_add, zero_add]
    exact hbal
  simp only [postJournalEntry, hc1, Bool.false_eq_true, if_false, hl, Option.getD_some,
    hc2, hfind, hbal2, if_true, if_pos hbal2]
  simp [hdate, hdesc]

/-- Witness for the amended C3 theorem at a concrete doubly-invalid request. -/
theorem unbalanced_error_precedes_ambiguous_witness :
    strFalsy cexBodyBoth.date = false ∧
    strFalsy cexBodyBoth.description = false ∧
    cexBodyBoth.lines = some [⟨"i1", 10, 5⟩, ⟨"i2", 0, 3⟩] ∧
    2 ≤ ([⟨"i1", 10, 5⟩, ⟨"i2", 0, 3⟩] : List Database.LineInput).length ∧
    (∀ l ∈ ([⟨"i1", 10, 5⟩, ⟨"i2", 0, 3⟩] : List Database.LineInput),
      (cexSt0.getAccountById l.accountId).isSome) ∧
    (∃ l ∈ ([⟨"i1", 10, 5⟩, ⟨"i2", 0, 3⟩] : List Database.LineInput),
      0 < l.debitAmount ∧ 0 < l.creditAmount) ∧
    1 / 100 < |(([⟨"i1", 10, 5⟩, ⟨"i2", 0, 3⟩] : List Database.LineInput).map
        (fun l => l.debitAmount)).sum
      - (([⟨"i1", 10, 5⟩, ⟨"i2", 0, 3⟩] : List Database.LineInput).map
        (fun l => l.creditAmount)).sum| ∧
    (postJournalEntry cexSt0 cexBodyBoth "E1" ["L1", "L2"] 1).1
      = Except.error ApiError.unbalanced :=
  ⟨rfl, rfl, rfl, by norm_num,
   by intro l hlmem; fin_cases hlmem <;> rfl,
   ⟨⟨"i1", 10, 5⟩, List.mem_cons_self _ _, by norm_num, by norm_num⟩,
   by norm_num [lt_abs],
   unbalanced_error_precedes_ambiguous cexSt0 cexBodyBoth "E1" ["L1", "L2"] 1
     [⟨"i1", 10, 5⟩, ⟨"i2", 0, 3⟩] rfl rfl rfl (by norm_num)
     (by intro l hlmem; fin_cases hlmem <;> rfl)
     ⟨⟨"i1", 10, 5⟩, List.mem_cons_self _ _, by norm_num, by norm_num⟩
     (by norm_num [lt_abs])⟩

/-- An otherwise valid submission whose third line has debit 0 and
credit 0. -/
def cexBodyZero : JournalEntryBody :=
  { date := some "2024-01-15", description := some "zero line",
    lines := some [⟨"i1", 10, 0⟩, ⟨"i2", 0, 10⟩, ⟨"i1", 0, 0⟩] }

/-- C4 counterexample: a submission containing a line with debit and credit
both exactly zero is accepted and stored as-is — neither-side lines are not
rejected with a validation error. -/
theorem zero_zero_line_accepted_counterexample :
    ((postJournalEntry cexSt0 cexBodyZero "E1" ["L1", "L2", "L3"] 1).1.toOption.map
        (fun e => e.lines.map (fun l => (l.debitAmount, l.creditAmount))))
      = some [(10, 0), (0, 10), (0, 0)] := by
  norm_num +decide [postJournalEntry, cexSt0, cexBodyZero, cexIds, mkInitialDatabase,
    mkInitialAccounts, standardAccountSpecs, strFalsy, Database.getAccountById,
    Database.createJournalEntry, Database.buildLines, Database.buildLine, lt_abs]

theorem mem_buildLines (st : Database) (entryId : String)
    (ls : List Database.LineInput) : ∀ (lineIds : List String),
    ∀ l ∈ st.buildLines entryId lineIds ls,
    ∃ li ∈ ls, l.debitAmount = li.debitAmount ∧ l.creditAmount = li.creditAmount := by
  induction ls with
  | nil => intro lineIds l hl; cases hl
  | cons li ls ih =>
    intro lineIds l hl
    simp only [Database.buildLines] at hl
    rcases List.mem_cons.mp hl with h1 | h1
    · exact ⟨li, List.mem_cons_self li ls, by rw [h1]; exact ⟨rfl, rfl⟩⟩
    · rcases ih lineIds.tail l h1 with ⟨li2, hmem, h2⟩
      exact ⟨li2, List.mem_cons_of_mem li hmem, h2⟩

/-- C4 (amended): every line of a journal entry accepted by create has at
most one of debitAmount/creditAmount strictly positive — the handler
rejects lines with both sides positive, but it accepts a line with both
amounts zero rather than rejecting it. -/
theorem accepted_lines_not_both_positive (st : Database) (body : JournalEntryBody)
    (entryId : String) (lineIds : List String) (now : Nat) (e : JournalEntry)
    (h : (postJournalEntry st body entryId lineIds now).1 = Except.ok e) :
    ∀ l ∈ e.lines, ¬ (0 < l.debitAmount ∧ 0 < l.creditAmount) := by
  rcases postJournalEntry_spec st body entryId lineIds now with
    ⟨err, heq⟩ | ⟨lines, hl, hlen, hres, hbal, hamb, heq⟩
  · rw [heq] at h; cases h
  · rw [heq] at h
    have he : e = (st.createJournalEntry (body.date.getD "") (body.description.getD "")
        lines entryId lineIds now).1 := by
      cases h; rfl
    subst he
    intro l hle hcon
    simp only [Database.createJournalEntry] at hle
    rcases mem_buildLines st entryId lines lineIds l hle with ⟨li, hmem, hd, hc⟩
    exact hamb li hmem ⟨hd ▸ hcon.1, hc ▸ hcon.2⟩

/-- Witness for the amended C4 theorem at a concrete accepted request. -/
theorem accepted_lines_not_both_positive_witness :
    ((postJournalEntry cexSt0 cexBodyZero "E1" ["L1", "L2", "L3"] 1).1
        = Except.ok ((cexSt0.createJournalEntry "2024-01-15" "zero line"
            (cexBodyZero.lines.getD []) "E1" ["L1", "L2", "L3"] 1).1)) ∧
    (∀ l ∈ ((cexSt0.createJournalEntry "2024-01-15" "zero line"
        (cexBodyZero.lines.getD []) "E1" ["L1", "L2", "L3"] 1).1).lines,
      ¬ (0 < l.debitAmount ∧ 0 < l.creditAmount)) :=
  ⟨by norm_num +decide [postJournalEntry, cexSt0, cexBodyZero, cexIds, mkInitialDatabase,
      mkInitialAccounts, standardAccountSpecs, strFalsy, Database.getAccountById, lt_abs],
   accepted_lines_not_both_positive cexSt0 cexBodyZero "E1" ["L1", "L2", "L3"] 1 _
     (by norm_num +decide [postJournalEntry, cexSt0, cexBodyZero, cexIds, mkInitialDatabase,
       mkInitialAccounts, standardAccountSpecs, strFalsy, Database.getAccountById, lt_abs])⟩

/-- A stored entry flagged as belonging to a closed fiscal period. -/
def closedEntry : JournalEntry :=
  { id := "E9", date := "2024-01-01", description := "closed period entry",
    lines :=
      [{ id := "L1", journalEntryId := "E9", accountId := "i1", accountName := some "現金",
         debitAmount := 10000, creditAmount := 0 },
       { id := "L2", journalEntryId := "E9", accountId := "i2", accountName := some "預金",
         debitAmount := 0, creditAmount := 10000 }],
    isClosed := true, createdAt := 0, updatedAt := 0 }

/-- A store holding one closed journal entry. -/
def closedSt : Database :=
  { accounts := mkInitialAccounts cexIds 0, journalEntries := [closedEntry] }

/-- C5 (code bug): the store performs no isClosed check — deleting a closed
journal entry succeeds and removes it, and updating a closed entry succeeds
as well, instead of both being rejected with a conflict. -/
theorem closed_entry_delete_succeeds :
    closedEntry.isClosed = true ∧
    (closedSt.deleteJournalEntry "E9").1 = true ∧
    (closedSt.deleteJournalEntry "E9").2.journalEntries = [] ∧
    ((closedSt.updateJournalEntry "E9" "2024-02-01" "changed" 5).1).isSome = true :=
  ⟨rfl, rfl, rfl, rfl⟩

/-! ### The account deletion guard. -/

theorem removeFirst_isSome_of_mem {p : α → Bool} {x : α} :
    ∀ {l : List α}, x ∈ l → p x = true → ∃ ys, removeFirst p l = some ys := by
  intro l
  induction l with
  | nil => intro hx; cases hx
  | cons z zs ih =>
    intro hx hp
    rcases List.mem_cons.mp hx with h1 | h1
    · subst h1
      exact ⟨zs, by simp [removeFirst, hp]⟩
    · by_cases hz : p z
      · exact ⟨zs, by simp [removeFirst, hz]⟩
      · rcases ih h1 hp with ⟨ys, hys⟩
        exact ⟨z :: ys, by simp [removeFirst, hz, hys]⟩

theorem removeFirst_length {p : α → Bool} :
    ∀ {l : List α} {ys}, removeFirst p l = some ys → ys.length + 1 = l.length := by
  intro l
  induction l with
  | nil => intro ys h; cases h
  | cons z zs ih =>
    intro ys h
    simp only [removeFirst] at h
    by_cases hz : p z
    · rw [if_pos hz] at h
      cases h
      rfl
    · rw [if_neg hz] at h
      rcases Option.map_eq_some'.mp h with ⟨ys2, hys2, hcons⟩
      subst hcons
      simp [ih hys2]

theorem removeFirst_account_id_not_mem {id : String} :
    ∀ {l : List Account} {ys}, (l.map Account.id).Nodup →
    removeFirst (fun a => a.id == id) l = some ys →
    ∀ a ∈ ys, a.id ≠ id := by
  intro l
  induction l with
  | nil => intro ys _ h; cases h
  | cons z zs ih =>
    intro ys hnd h a ha
    simp only [List.map_cons, List.nodup_cons] at hnd
    simp only [removeFirst] at h
    by_cases hz : z.id = id
    · rw [if_pos (by simp [hz])] at h
      cases h
      intro haid
      apply hnd.1
      rw [hz, ← haid]
      exact List.mem_map_of_mem Account.id ha
    · rw [if_neg (by simp [hz])] at h
      rcases Option.map_eq_some'.mp h with ⟨ys2, hys2, hcons⟩
      subst hcons
      rcases List.mem_cons.mp ha with h1 | h1
      · rw [h1]; exact hz
      · exact ih hnd.2 hys2 a h1

/-- C6: account deletion is guarded by usage — it fails and leaves the
store unchanged whenever some journal line references the account, and it
succeeds and removes the account whenever the account exists and no line
references it. -/
theorem deleteAccount_usage_guard (st : Database) (id : String) :
    ((∃ e ∈ st.journalEntries, ∃ l ∈ e.lines, l.accountId = id) →
      st.deleteAccount id = (false, st)) ∧
    ((∀ e ∈ st.journalEntries, ∀ l ∈ e.lines, l.accountId ≠ id) →
      (∃ a ∈ st.accounts, a.id = id) →
      (st.deleteAccount id).1 = true ∧
      (st.deleteAccount id).2.journalEntries = st.journalEntries ∧
      (st.deleteAccount id).2.accounts.length + 1 = st.accounts.length ∧
      ((st.accounts.map Account.id).Nodup →
        ∀ a ∈ (st.deleteAccount id).2.accounts, a.id ≠ id)) := by
  constructor
  · rintro ⟨e, he, l, hl, hid⟩
    have hused : (st.journalEntries.any fun entry =>
        entry.lines.any fun line => line.accountId == id) = true :=
      List.any_eq_true.mpr ⟨e, he, List.any_eq_true.mpr ⟨l, hl, by simp [hid]⟩⟩
    simp [Database.deleteAccount, hused]
  · rintro hnone ⟨a, ha, haid⟩
    have hunused : (st.journalEntries.any fun entry =>
        entry.lines.any fun line => line.accountId == id) = false := by
      rw [List.any_eq_false]
      intro e he
      rw [Bool.not_eq_true, List.any_eq_false]
      intro l hl
      simp [hnone e he l hl]
    rcases @removeFirst_isSome_of_mem Account (fun acc => acc.id == id) a st.accounts
      ha (by simp [haid]) with ⟨ys, hys⟩
    have hred : st.deleteAccount id = (true, { st with accounts := ys }) := by
      simp only [Database.deleteAccount]
      rw [hunused]
      simp only [Bool.false_eq_true, if_false]
      rw [hys]
    rw [hred]
    refine ⟨rfl, rfl, ?_, ?_⟩
    · simpa using removeFirst_length hys
    · intro hnd
      exact removeFirst_account_id_not_mem hnd hys

/-- A journal line posting 10000 to account i1. -/
def usedLine1 : JournalLine :=
  { id := "L1", journalEntryId := "E1", accountId := "i1", accountName := some "現金",
    debitAmount := 10000, creditAmount := 0 }

/-- The balancing credit line on account i2. -/
def usedLine2 : JournalLine :=
  { id := "L2", journalEntryId := "E1", accountId := "i2", accountName := some "預金",
    debitAmount := 0, creditAmount := 10000 }

/-- A stored entry referencing accounts i1 and i2. -/
def usedEntry : JournalEntry :=
  { id := "E1", date := "2024-01-15", description := "entry using i1",
    lines := [usedLine1, usedLine2], isClosed := false, createdAt := 1, updatedAt := 1 }

/-- A store in which account i1 is referenced by a journal line. -/
def usedSt : Database :=
  { accounts := mkInitialAccounts cexIds 0, journalEntries := [usedEntry] }

/-- Witness for C6: both branches at concrete stores. -/
theorem deleteAccount_usage_guard_witness :
    usedSt.deleteAccount "i1" = (false, usedSt) ∧
    (cexSt0.deleteAccount "i1").1 = true ∧
    (cexSt0.deleteAccount "i1").2.accounts.length + 1 = cexSt0.accounts.length :=
  have h1 : ∃ e ∈ usedSt.journalEntries, ∃ l ∈ e.lines, l.accountId = "i1" :=
    ⟨usedEntry, List.mem_cons_self _ _, usedLine1, List.mem_cons_self _ _, rfl⟩
  have h2 : ∀ e ∈ cexSt0.journalEntries, ∀ l ∈ e.lines, l.accountId ≠ "i1" := by
    intro e he
    simp [cexSt0, mkInitialDatabase] at he
  have h3 : ∃ a ∈ cexSt0.accounts, a.id = "i1" :=
    ⟨{ id := "i1", code := "100", name := some "現金", type := AccountType.asset,
       category := some "流動資産", parentId := none, createdAt := 0, updatedAt := 0 },
     List.mem_cons_self _ _, rfl⟩
  ⟨(deleteAccount_usage_guard usedSt "i1").1 h1,
   ((deleteAccount_usage_guard cexSt0 "i1").2 h2 h3).1,
   ((deleteAccount_usage_guard cexSt0 "i1").2 h2 h3).2.2.1⟩

/-! ### The account balance projection. -/

/-- Specification-side account balance (spec §4.3): the sum over included
entries' lines on this account of (debit - credit) when the account type is
asset or expense, and of (credit - debit) otherwise. Stated with the spec's
words for comparison against the source's `getAccountBalance`. -/
def specAccountBalance (st : Database) (account : Account) (accountId : String)
    (asOfDate : Option String) : ℚ :=
  ((st.includedEntries asOfDate).map (fun e =>
    ((e.lines.filter (fun l => l.accountId == accountId)).map (fun l =>
      if account.type = AccountType.asset ∨ account.type = AccountType.expense then
        l.debitAmount - l.creditAmount
      else
        l.creditAmount - l.debitAmount)).sum)).sum

theorem foldl_if_add_eq (accountId : String) (f : JournalLine → ℚ)
    (lines : List JournalLine) : ∀ bal : ℚ,
    lines.foldl (fun bal l => if l.accountId == accountId then bal + f l else bal) bal
      = bal + ((lines.filter (fun l => l.accountId == accountId)).map f).sum := by
  induction lines with
  | nil => intro bal; simp
  | cons l lines ih =>
    intro bal
    simp only [List.foldl_cons, List.filter_cons]
    by_cases h : (l.accountId == accountId) = true
    · rw [if_pos h, if_pos h, ih, List.map_cons, List.sum_cons]
      ring
    · rw [if_neg h, if_neg h, ih]

theorem foldl_entries_if_add_eq (accountId : String) (f : JournalLine → ℚ)
    (entries : List JournalEntry) : ∀ bal : ℚ,
    entries.foldl (fun bal e =>
        e.lines.foldl (fun bal l => if l.accountId == accountId then bal + f l else bal) bal)
      bal
      = bal + (entries.map (fun e =>
          ((e.lines.filter (fun l => l.accountId == accountId)).map f).sum)).sum := by
  induction entries with
  | nil => intro bal; simp
  | cons e entries ih =>
    intro bal
    simp only [List.foldl_cons, List.map_cons, List.sum_cons]
    rw [foldl_if_add_eq, ih]
    ring

/-- C7: the account balance computed by the source equals the spec formula
for the resolved account, and it is 0 for an account no stored line
references. -/
theorem getAccountBalance_matches_spec (st : Database) (accountId : String)
    (account : Account) (asOfDate : Option String)
    (h : st.getAccountById accountId = some account) :
    st.getAccountBalance accountId asOfDate
        = specAccountBalance st account accountId asOfDate ∧
    ((∀ e ∈ st.journalEntries, ∀ l ∈ e.lines, l.accountId ≠ accountId) →
      st.getAccountBalance accountId asOfDate = 0) := by
  have hmain : st.getAccountBalance accountId asOfDate
      = specAccountBalance st account accountId asOfDate := by
    unfold Database.getAccountBalance
    rw [h]
    unfold specAccountBalance
    by_cases hcond : account.type = AccountType.asset ∨ account.type = AccountType.expense
    · simp only [hcond, if_true]
      rw [foldl_entries_if_add_eq accountId (fun l => l.debitAmount - l.creditAmount)]
      simp
    · simp only [hcond, if_false]
      rw [foldl_entries_if_add_eq accountId (fun l => l.creditAmount - l.debitAmount)]
      simp
  refine ⟨hmain, fun hnone => ?_⟩
  rw [hmain]
  unfold specAccountBalance
  apply List.sum_eq_zero
  intro x hx
  rcases List.mem_map.mp hx with ⟨e, he, hxe⟩
  have hfil : e.lines.filter (fun l => l.accountId == accountId) = [] := by
    rw [List.filter_eq_nil]
    intro l hl
    simp [hnone e (mem_of_mem_includedEntries he) l hl]
  rw [← hxe, hfil]
  simp

/-- The first seeded account of `cexSt0` (code 100, 現金, asset). -/
def cexCashAccount : Account :=
  { id := "i1", code := "100", name := some "現金", type := AccountType.asset,
    category := some "流動資産", parentId := none, createdAt := 0, updatedAt := 0 }

/-- Witness for C7 at a concrete store with one posted entry. -/
theorem getAccountBalance_matches_spec_witness :
    usedSt.getAccountById "i1" = some cexCashAccount ∧
    (usedSt.getAccountBalance "i1" (some "2024-12-31")
        = specAccountBalance usedSt cexCashAccount "i1" (some "2024-12-31") ∧
      ((∀ e ∈ usedSt.journalEntries, ∀ l ∈ e.lines, l.accountId ≠ "i1") →
        usedSt.getAccountBalance "i1" (some "2024-12-31") = 0)) :=
  ⟨rfl, getAccountBalance_matches_spec usedSt "i1" cexCashAccount (some "2024-12-31") rfl⟩

/-! ### The balance-sheet aggregation. -/

/-- An asset account for the balance-sheet evaluation. -/
def acctCash : Account :=
  { id := "a-cash", code := "100", name := some "現金", type := AccountType.asset,
    category := some "流動資産", parentId := none, createdAt := 0, updatedAt := 0 }

/-- An expense account for the balance-sheet evaluation. -/
def acctPurchases : Account :=
  { id := "a-pur", code := "500", name := some "仕入", type := AccountType.expense,
    category := some "売上原価", parentId := none, createdAt := 0, updatedAt := 0 }

/-- An exactly balanced purchase entry: debit 仕入 5000, credit 現金 5000. -/
def expenseEntry : JournalEntry :=
  { id := "E1", date := "2024-01-15", description := "商品仕入",
    lines :=
      [{ id := "L1", journalEntryId := "E1", accountId := "a-pur", accountName := some "仕入",
         debitAmount := 5000, creditAmount := 0 },
       { id := "L2", journalEntryId := "E1", accountId := "a-cash", accountName := some "現金",
         debitAmount := 0, creditAmount := 5000 }],
    isClosed := false, createdAt := 1, updatedAt := 1 }

/-- A store whose only entry is the balanced purchase entry. -/
def expenseSt : Database :=
  { accounts := [acctCash, acctPurchases], journalEntries := [expenseEntry] }

/-- C8 (code bug): with a single exactly balanced entry posting an expense
(debit 仕入 5000, credit 現金 5000), the balance sheet computes
assets = -5000, liabilities = 0, equity = +5000, so
assets differs from liabilities + equity by 10000 — far outside the 0.01
tolerance. The expense branch adds the raw balance into equity instead of
subtracting it, contradicting the source's own comment on that line. -/
theorem balanceSheet_identity_fails_on_expense :
    entryDebitSum expenseEntry = entryCreditSum expenseEntry ∧
    (expenseSt.getBalanceSheet none).assets = -5000 ∧
    (expenseSt.getBalanceSheet none).liabilities = 0 ∧
    (expenseSt.getBalanceSheet none).equity = 5000 ∧
    ¬ |(expenseSt.getBalanceSheet none).assets
        - ((expenseSt.getBalanceSheet none).liabilities
            + (expenseSt.getBalanceSheet none).equity)| ≤ 1 / 100 := by
  norm_num +decide [entryDebitSum, entryCreditSum, expenseSt, expenseEntry, acctCash,
    acctPurchases, Database.getBalanceSheet, Database.includedEntries, mset, mget, abs_le]

/-! ### The account PUT handler. -/

theorem replaceFirst_length {p : α → Bool} {f : α → α} :
    ∀ {l : List α} {y : α} {ys : List α},
    replaceFirst p f l = some (y, ys) → ys.length = l.length := by
  intro l
  induction l with
  | nil => intro y ys h; cases h
  | cons x xs ih =>
    intro y ys h
    simp only [replaceFirst] at h
    by_cases hx : p x
    · rw [if_pos hx] at h
      cases h
      rfl
    · rw [if_neg hx] at h
      cases hrec : replaceFirst p f xs with
      | none => rw [hrec] at h; cases h
      | some pair =>
        rcases pair with ⟨y2, ys2⟩
        rw [hrec] at h
        cases h
        simp [ih hrec]

theorem replaceFirst_getD_rel (P : α → α → Prop) (href : ∀ x, P x x)
    {p : α → Bool} {f : α → α} (hf : ∀ x, P x (f x)) :
    ∀ (l : List α) (y : α) (ys : List α), replaceFirst p f l = some (y, ys) →
    ∀ (i : Nat) (d : α), P (l.getD i d) (ys.getD i d) := by
  intro l
  induction l with
  | nil => intro y ys h; cases h
  | cons x xs ih =>
    intro y ys h i d
    simp only [replaceFirst] at h
    by_cases hx : p x
    · rw [if_pos hx] at h
      cases h
      cases i with
      | zero => simpa using hf x
      | succ n => simp only [List.getD_cons_succ]; exact href _
    · rw [if_neg hx] at h
      cases hrec : replaceFirst p f xs with
      | none => rw [hrec] at h; cases h
      | some pair =>
        rcases pair with ⟨y2, ys2⟩
        rw [hrec] at h
        have h2 : (y2, x :: ys2) = (y, ys) := Option.some.inj h
        rw [Prod.mk.injEq] at h2
        obtain ⟨hy, hys⟩ := h2
        subst hy
        subst hys
        cases i with
        | zero => simpa using href x
        | succ n => simp only [List.getD_cons_succ]; exact ih y2 ys2 hrec n d

/-- The out-of-range placeholder for positional account comparisons. -/
def defaultAccount : Account :=
  { id := "", code := "", name := none, type := AccountType.asset, category := none,
    parentId := none, createdAt := 0, updatedAt := 0 }

/-- C9: the account PUT handler never changes a stored account's id, code,
type, parentId or createdAt — code and type supplied in the body are
dropped before reaching the store, so at every position only name,
category and updatedAt can differ, and journal entries are untouched. -/
theorem putAccount_preserves_code_and_type (st : Database) (id : String)
    (body : AccountPatchBody) (now : Nat) :
    (putAccount st id body now).2.journalEntries = st.journalEntries ∧
    (putAccount st id body now).2.accounts.length = st.accounts.length ∧
    ∀ i : Nat,
      ((putAccount st id body now).2.accounts.getD i defaultAccount).id
          = (st.accounts.getD i defaultAccount).id ∧
      ((putAccount st id body now).2.accounts.getD i defaultAccount).code
          = (st.accounts.getD i defaultAccount).code ∧
      ((putAccount st id body now).2.accounts.getD i defaultAccount).type
          = (st.accounts.getD i defaultAccount).type ∧
      ((putAccount st id body now).2.accounts.getD i defaultAccount).parentId
          = (st.accounts.getD i defaultAccount).parentId ∧
      ((putAccount st id body now).2.accounts.getD i defaultAccount).createdAt
          = (st.accounts.getD i defaultAccount).createdAt := by
  unfold putAccount Database.updateAccount
  cases hrep : replaceFirst (fun acc => acc.id == id)
      (fun acc => { acc with name := body.name, category := body.category, updatedAt := now })
      st.accounts with
  | none => simp
  | some pair =>
    rcases pair with ⟨y, ys⟩
    refine ⟨rfl, replaceFirst_length hrep, ?_⟩
    intro i
    exact replaceFirst_getD_rel
      (fun a b => b.id = a.id ∧ b.code = a.code ∧ b.type = a.type
        ∧ b.parentId = a.parentId ∧ b.createdAt = a.createdAt)
      (fun x => ⟨rfl, rfl, rfl, rfl, rfl⟩)
      (fun x => ⟨rfl, rfl, rfl, rfl, rfl⟩)
      st.accounts y ys hrep i defaultAccount

theorem replaceFirst_isSome_of_find? {p : α → Bool} {f : α → α} :
    ∀ {l : List α} {x : α}, l.find? p = some x →
    ∃ y ys, replaceFirst p f l = some (y, ys) := by
  intro l
  induction l with
  | nil => intro x h; cases h
  | cons z zs ih =>
    intro x h
    by_cases hz : p z
    · exact ⟨f z, f z :: zs, by simp [replaceFirst, hz]⟩
    · have hz2 : p z = false := by revert hz; cases p z <;> simp
      rw [List.find?_cons_of_neg _ hz] at h
      rcases ih h with ⟨y, ys, hrec⟩
      exact ⟨y, z :: ys, by simp [replaceFirst, hz, hrec]⟩

theorem replaceFirst_find? {p : α → Bool} {f : α → α} (hp : ∀ x, p (f x) = p x) :
    ∀ {l : List α} {y : α} {ys : List α}, replaceFirst p f l = some (y, ys) →
    ∃ x, l.find? p = some x ∧ y = f x ∧ ys.find? p = some (f x) := by
  intro l
  induction l with
  | nil => intro y ys h; cases h
  | cons z zs ih =>
    intro y ys h
    simp only [replaceFirst] at h
    by_cases hz : p z
    · rw [if_pos hz] at h
      cases h
      refine ⟨z, ?_, rfl, ?_⟩
      · exact List.find?_cons_of_pos _ hz
      · exact List.find?_cons_of_pos _ (by rw [hp z]; exact hz)
    · have hz2 : p z = false := by revert hz; cases p z <;> simp
      rw [if_neg hz] at h
      cases hrec : replaceFirst p f zs with
      | none => rw [hrec] at h; cases h
      | some pair =>
        rcases pair with ⟨y2, ys2⟩
        rw [hrec] at h
        cases h
        rcases ih hrec with ⟨x, hfind, hy, hfind2⟩
        refine ⟨x, ?_, hy, ?_⟩
        · rw [List.find?_cons_of_neg _ hz]; exact hfind
        · rw [List.find?_cons_of_neg _ hz]; exact hfind2

/-- C10: an account PUT whose body omits name does not leave the stored
name unchanged — the handler always passes the name key, so the omitted
field overwrites the stored value with undefined (none). -/
theorem putAccount_omitted_name_becomes_none (st : Database) (id : String)
    (body : AccountPatchBody) (now : Nat) (a : Account) (n : String)
    (hfound : st.getAccountById id = some a)
    (hname : a.name = some n)
    (hbody : body.name = none) :
    ((putAccount st id body now).2.getAccountById id).bind Account.name = none ∧
    (st.getAccountById id).bind Account.name = some n := by
  constructor
  · unfold Database.getAccountById at hfound
    rcases @replaceFirst_isSome_of_find? Account (fun acc => acc.id == id)
      (fun acc => { acc with name := body.name, category := body.category, updatedAt := now })
      st.accounts a hfound with ⟨y, ys, hrep⟩
    rcases @replaceFirst_find? Account (fun acc => acc.id == id)
      (fun acc => { acc with name := body.name, category := body.category, updatedAt := now })
      (fun x => rfl) st.accounts y ys hrep with ⟨x, hfind, hy, hfind2⟩
    unfold putAccount Database.updateAccount
    rw [hrep]
    show ((List.find? (fun acc => acc.id == id) ys).bind Account.name) = none
    rw [hfind2]
    simp [hbody]
  · rw [hfound]
    simp [hname]

/-- A PUT body omitting name, while supplying category, code and type. -/
def cexPatchBody : AccountPatchBody :=
  { name := none, category := some "新カテゴリ", code := some "999",
    type := some AccountType.expense }

/-- Witness for C10 at the seeded cash account. -/
theorem putAccount_omitted_name_becomes_none_witness :
    cexSt0.getAccountById "i1" = some cexCashAccount ∧
    cexCashAccount.name = some "現金" ∧
    cexPatchBody.name = none ∧
    ((putAccount cexSt0 "i1" cexPatchBody 7).2.getAccountById "i1").bind Account.name
      = none :=
  ⟨rfl, rfl, rfl,
   (putAccount_omitted_name_becomes_none cexSt0 "i1" cexPatchBody 7 cexCashAccount "現金"
     rfl rfl rfl).1⟩

end Accounting
